import Mathlib

/-!
Shallow embedding of the Vanish PNG chunk library (crates `edpg` and `cli`).

Bytes are modelled as `Nat` (with explicit `% 2^32` where Rust casts to
`u32`); byte buffers as `List Nat`; fallible Rust functions returning
`Result` become `Except`; a Rust panic (out-of-range `split_at`,
`Option::expect`) is a distinguished outcome of the result type.
-/

deriving instance DecidableEq for Except

/-- `u8::is_ascii_uppercase`. -/
def isAsciiUppercaseNat (b : Nat) : Bool := 65 ≤ b && b ≤ 90

/-- `u8::is_ascii_lowercase`. -/
def isAsciiLowercaseNat (b : Nat) : Bool := 97 ≤ b && b ≤ 122

/-- `u8::is_ascii_alphabetic`. -/
def isAsciiAlphabeticNat (b : Nat) : Bool :=
  isAsciiUppercaseNat b || isAsciiLowercaseNat b

/-- `ChunkTypeError` from `src/edpg/src/chunk_type.rs`. -/
inductive ChunkTypeError where
  | NonAsciiCharFound
  | InvalidLength
  | TryFromSliceError
  | InvalidChunkType
deriving DecidableEq

/-- `ChunkType` from `src/edpg/src/chunk_type.rs`: exactly 4 bytes. -/
structure ChunkType where
  b0 : Nat
  b1 : Nat
  b2 : Nat
  b3 : Nat
deriving DecidableEq

/-- `ChunkType::bytes`. -/
def ChunkType.bytes (t : ChunkType) : List Nat := [t.b0, t.b1, t.b2, t.b3]

/-- `ChunkType::is_valid_byte`: errs with `NonAsciiCharFound` unless all 4
bytes are ASCII-alphabetic. -/
def ChunkType.is_valid_byte (t : ChunkType) : Except ChunkTypeError Bool :=
  if !(t.bytes.all isAsciiAlphabeticNat) then .error .NonAsciiCharFound
  else .ok true

/-- `ChunkType::is_reserved_bit_valid`: byte 2 must be ASCII-uppercase. -/
def ChunkType.is_reserved_bit_valid (t : ChunkType) : Except ChunkTypeError Bool :=
  if isAsciiUppercaseNat t.b2 then .ok true else .error .InvalidChunkType

/-- `ChunkType::is_valid`: reserved-bit check first, then the byte check. -/
def ChunkType.is_valid (t : ChunkType) : Except ChunkTypeError Bool :=
  match t.is_reserved_bit_valid with
  | .error e => .error e
  | .ok _ =>
    match t.is_valid_byte with
    | .error e => .error e
    | .ok _ => .ok true

/-- `ChunkType::is_critical`: byte 0 is ASCII-uppercase. -/
def ChunkType.is_critical (t : ChunkType) : Bool := isAsciiUppercaseNat t.b0

/-- `ChunkType::is_public`: byte 1 is ASCII-uppercase. -/
def ChunkType.is_public (t : ChunkType) : Bool := isAsciiUppercaseNat t.b1

/-- `ChunkType::is_safe_to_copy`: byte 3 is ASCII-lowercase. -/
def ChunkType.is_safe_to_copy (t : ChunkType) : Bool := isAsciiLowercaseNat t.b3

/-- UTF-8 encoding of a single character (Rust `str` bytes). -/
def utf8Bytes (c : Char) : List Nat :=
  let n := c.toNat
  if n < 0x80 then [n]
  else if n < 0x800 then [0xC0 + n / 64, 0x80 + n % 64]
  else if n < 0x10000 then
    [0xE0 + n / 4096, 0x80 + n / 64 % 64, 0x80 + n % 64]
  else
    [0xF0 + n / 262144, 0x80 + n / 4096 % 64, 0x80 + n / 64 % 64, 0x80 + n % 64]

/-- The UTF-8 byte sequence of a string (Rust `str::as_bytes`;
`str::len` is the length of this list). -/
def strUtf8 (s : List Char) : List Nat := (s.map utf8Bytes).flatten

/-- `<&[u8] as TryInto<[u8;4]>>::try_into`: succeeds exactly on 4-byte slices. -/
def chunkTypeFromList : List Nat → Option ChunkType
  | [a, b, c, d] => some ⟨a, b, c, d⟩
  | _ => none

/-- `ChunkType::from_str` from `src/edpg/src/chunk_type.rs`: byte-length
check, slice conversion, then `is_valid_byte`. -/
def ChunkType.fromStr (s : List Char) : Except ChunkTypeError ChunkType :=
  let bs := strUtf8 s
  if bs.length ≠ 4 then .error .InvalidLength
  else
    match chunkTypeFromList bs with
    | none => .error .TryFromSliceError
    | some t =>
      match t.is_valid_byte with
      | .error e => .error e
      | .ok _ => .ok t

/-- One bit-step of the reflected CRC-32 polynomial 0xEDB88320. -/
def crc32Step (r : Nat) : Nat :=
  if r % 2 = 1 then (r / 2) ^^^ 0xEDB88320 else r / 2

/-- The byte-indexed CRC-32 table entry: 8 bit-steps. -/
def crc32Table (b : Nat) : Nat := crc32Step^[8] b

/-- CRC-32 state update by one input byte. -/
def crc32Update (crc b : Nat) : Nat :=
  (crc / 256) ^^^ crc32Table ((crc ^^^ b) % 256)

/-- CRC-32/ISO-HDLC over a byte sequence (the `crc` crate's
`Crc::<u32>::new(&CRC_32_ISO_HDLC).checksum`): init `0xFFFFFFFF`,
reflected, xorout `0xFFFFFFFF`. -/
def crc32 (bytes : List Nat) : Nat :=
  (bytes.foldl crc32Update 0xFFFFFFFF) ^^^ 0xFFFFFFFF

/-- `u32::to_be_bytes` (big-endian, most significant first). -/
def beBytes32 (n : Nat) : List Nat :=
  [n / 2 ^ 24 % 256, n / 2 ^ 16 % 256, n / 2 ^ 8 % 256, n % 256]

/-- `u32::from_be_bytes` composed with the slice conversion: succeeds
exactly on 4-byte slices. -/
def beU32OfList : List Nat → Option Nat
  | [a, b, c, d] => some (((a * 256 + b) * 256 + c) * 256 + d)
  | _ => none

/-- `Chunk` from `src/edpg/src/chunk.rs`: a chunk type and an owned payload
(no cached length or checksum field). `Chunk::new` stores exactly these. -/
structure Chunk where
  chunkType : ChunkType
  data : List Nat
deriving DecidableEq

/-- `Chunk::length`: `data.len() as u32` (truncating cast). -/
def Chunk.length (c : Chunk) : Nat := c.data.length % 2 ^ 32

/-- `Chunk::crc`: CRC-32/ISO-HDLC over type bytes then payload. -/
def Chunk.crc (c : Chunk) : Nat := crc32 (c.chunkType.bytes ++ c.data)

/-- `Chunk::as_bytes`: `data.len() as u32` big-endian, type bytes, payload,
recomputed CRC big-endian. -/
def Chunk.asBytes (c : Chunk) : List Nat :=
  beBytes32 (c.data.length % 2 ^ 32) ++ c.chunkType.bytes ++ c.data
    ++ beBytes32 c.crc

/-- `ChunkError` from `src/edpg/src/chunk.rs` (the `InvalidUtf8` payload is
irrelevant to the claims and elided). -/
inductive ChunkError where
  | InvalidUtf8
  | ShortInput (n : Nat)
  | SliceToSized
  | ChunkTypeError (e : ChunkTypeError)
  | IncorrectCrc (foundCrc expectedCrc : Nat)
deriving DecidableEq

/-- Outcome of `Chunk::try_from`: a chunk, a typed error, or a Rust panic
(an out-of-range `split_at`). -/
inductive ParseResult where
  | ok (c : Chunk)
  | err (e : ChunkError)
  | panicked
deriving DecidableEq

/-- `Chunk::METADATA_BYTES` = 4 + 4 + 4. -/
def metadataBytes : Nat := 12

/-- `<Chunk as TryFrom<&[u8]>>::try_from` from `src/edpg/src/chunk.rs`.
Rust `split_at(mid)` panics when `mid` exceeds the slice length; those two
reachable panic sites become `.panicked`. -/
def chunkTryFrom (value : List Nat) : ParseResult :=
  if value.length < metadataBytes then .err (.ShortInput metadataBytes)
  else
    match beU32OfList (value.take 4) with
    | none => .err .SliceToSized
    | some dataLength =>
      let v1 := value.drop 4
      match chunkTypeFromList (v1.take 4) with
      | none => .err .SliceToSized
      | some ct =>
        match ct.is_valid with
        | .error e => .err (.ChunkTypeError e)
        | .ok _ =>
          let v2 := v1.drop 4
          if v2.length < dataLength then .panicked
          else
            let data := v2.take dataLength
            let v3 := v2.drop dataLength
            if v3.length < 4 then .panicked
            else
              match beU32OfList (v3.take 4) with
              | none => .err .SliceToSized
              | some foundCrc =>
                let expectedCrc := Chunk.crc ⟨ct, data⟩
                if foundCrc ≠ expectedCrc then
                  .err (.IncorrectCrc foundCrc expectedCrc)
                else .ok ⟨ct, data⟩

/-- Error kind of the container operations (`NotFound` in the spec's
vocabulary, `ChunkNotFound` in the crate's). -/
inductive PngError where
  | ChunkNotFound
deriving DecidableEq

/-- The container: an ordered sequence of chunks. The 8-byte signature is
irrelevant to the container-mutation claims and elided. -/
structure Png where
  chunks : List Chunk
deriving DecidableEq

/-- Modelled from the spec: `Png::find_by_chunk` lives in `edpg/src/png.rs`,
which is not among the provided sources. Per §4.3, `find_first` is a linear
scan in sequence order returning the index of the first chunk whose type
equals the argument, or absent. -/
def findFirstIdx (t : ChunkType) : List Chunk → Option Nat
  | [] => none
  | c :: rest =>
    if c.chunkType = t then some 0 else (findFirstIdx t rest).map (· + 1)

/-- Modelled from the spec: the list-level body of `Png::remove_first_chunk`
(`edpg/src/png.rs`, not among the provided sources). Per §4.3: locate the
first chunk of the given type; if absent fail `NotFound`; otherwise remove
and return that chunk, preserving the relative order of remaining chunks. -/
def removeFirstAux (t : ChunkType) : List Chunk → Except PngError (Chunk × List Chunk)
  | [] => .error .ChunkNotFound
  | c :: rest =>
    if c.chunkType = t then .ok (c, rest)
    else
      match removeFirstAux t rest with
      | .error e => .error e
      | .ok (c0, l) => .ok (c0, c :: l)

/-- Modelled from the spec: `Png::remove_first_chunk` (`edpg/src/png.rs`,
not among the provided sources), wrapped over the container. -/
def Png.removeFirstChunk (p : Png) (t : ChunkType) : Except PngError (Chunk × Png) :=
  match removeFirstAux t p.chunks with
  | .error e => .error e
  | .ok (c0, l) => .ok (c0, ⟨l⟩)

/-- Outcome of the CLI decode arm: a chunk, or a Rust panic from
`Option::expect`. -/
inductive DecodeOutcome where
  | ok (c : Chunk)
  | panicked
deriving DecidableEq

/-- The `Decode` arm of `main` in `src/cli/src/main.rs`:
`png.find_by_chunk(&chunk_type).expect(..)` then
`png.chunks().get(idx).expect(..)`; each `expect` panics when its operand
is absent. `find_by_chunk` itself is modelled from the spec (`findFirstIdx`). -/
def decodeOp (p : Png) (t : ChunkType) : DecodeOutcome :=
  match findFirstIdx t p.chunks with
  | none => .panicked
  | some i =>
    match p.chunks[i]? with
    | none => .panicked
    | some c => .ok c

/-- The `"RuSt"` chunk type of the repository's tests. -/
def rustType : ChunkType := ⟨82, 117, 83, 116⟩

/-- The bytes of the test payload
`This is where your secret message will be!`. -/
def secretMsg : List Nat :=
  [84, 104, 105, 115, 32, 105, 115, 32, 119, 104, 101, 114, 101, 32, 121,
   111, 117, 114, 32, 115, 101, 99, 114, 101, 116, 32, 109, 101, 115, 115,
   97, 103, 101, 32, 119, 105, 108, 108, 32, 98, 101, 33]

/-- The hand-built test buffer: length 42, type `RuSt`, the test payload,
then a caller-chosen stored checksum. -/
def testBuffer (storedCrc : Nat) : List Nat :=
  beBytes32 42 ++ [82, 117, 83, 116] ++ secretMsg ++ beBytes32 storedCrc

lemma length_four_exists {α : Type} {l : List α} (h : l.length = 4) :
    ∃ a b c d, l = [a, b, c, d] := by
  rcases l with _ | ⟨a, _ | ⟨b, _ | ⟨c, _ | ⟨d, _ | e⟩⟩⟩⟩ <;> simp_all

lemma chunkTypeFromList_bytes (t : ChunkType) :
    chunkTypeFromList t.bytes = some t := by
  cases t; rfl

lemma beU32OfList_beBytes32 {n : Nat} (h : n < 2 ^ 32) :
    beU32OfList (beBytes32 n) = some n := by
  simp only [beBytes32, beU32OfList, Option.some.injEq]
  omega

lemma crc32Step_lt {r : Nat} (h : r < 2 ^ 32) : crc32Step r < 2 ^ 32 := by
  unfold crc32Step
  split
  · exact Nat.xor_lt_two_pow (by omega) (by norm_num)
  · omega

lemma crc32Iterate_lt (k : Nat) : ∀ r : Nat, r < 2 ^ 32 → crc32Step^[k] r < 2 ^ 32 := by
  induction k with
  | zero => simp
  | succ n ih =>
    intro r h
    rw [Function.iterate_succ_apply]
    exact ih _ (crc32Step_lt h)

lemma crc32Update_lt {crc : Nat} (b : Nat) (h : crc < 2 ^ 32) :
    crc32Update crc b < 2 ^ 32 := by
  unfold crc32Update crc32Table
  exact Nat.xor_lt_two_pow (by omega) (crc32Iterate_lt 8 _ (by omega))

lemma crc32_foldl_lt (l : List Nat) : ∀ acc : Nat, acc < 2 ^ 32 →
    l.foldl crc32Update acc < 2 ^ 32 := by
  induction l with
  | nil => simp
  | cons a l ih =>
    intro acc h
    exact ih _ (crc32Update_lt a h)

lemma crc32_lt (l : List Nat) : crc32 l < 2 ^ 32 :=
  Nat.xor_lt_two_pow (crc32_foldl_lt l _ (by norm_num)) (by norm_num)

lemma isValid_ok_iff (t : ChunkType) :
    t.is_valid = .ok true ↔
      (t.bytes.all isAsciiAlphabeticNat = true ∧ isAsciiUppercaseNat t.b2 = true) := by
  unfold ChunkType.is_valid ChunkType.is_reserved_bit_valid ChunkType.is_valid_byte
  cases h1 : isAsciiUppercaseNat t.b2 <;>
    cases h2 : t.bytes.all isAsciiAlphabeticNat <;> simp [h1, h2]

/-- The action of `Chunk::try_from` on a well-formed chunk record (length
field matching the payload length, followed by a 4-byte stored checksum and
arbitrary trailing bytes). -/
lemma chunkTryFrom_shape (t : ChunkType) (payload trailing : List Nat) (stored : Nat)
    (hlen : payload.length < 2 ^ 32) (hstored : stored < 2 ^ 32) :
    chunkTryFrom
        (beBytes32 payload.length ++ (t.bytes ++ (payload ++ (beBytes32 stored ++ trailing)))) =
      match t.is_valid with
      | .error e => .err (.ChunkTypeError e)
      | .ok _ =>
        if stored = crc32 (t.bytes ++ payload) then .ok ⟨t, payload⟩
        else .err (.IncorrectCrc stored (crc32 (t.bytes ++ payload))) := by
  have hb4 : (beBytes32 payload.length).length = 4 := rfl
  have ht4 : t.bytes.length = 4 := rfl
  have hs4 : (beBytes32 stored).length = 4 := rfl
  have htotal :
      (beBytes32 payload.length ++ (t.bytes ++ (payload ++ (beBytes32 stored ++ trailing)))).length
        = 12 + payload.length + trailing.length := by
    simp [beBytes32]; omega
  simp only [chunkTryFrom, metadataBytes]
  rw [if_neg (by omega)]
  rw [List.take_left' hb4, beU32OfList_beBytes32 hlen]
  rw [List.drop_left' hb4, List.take_left' ht4, chunkTypeFromList_bytes]
  split
  case _ heq => simp at heq
  case _ L heq =>
    rw [Option.some.injEq] at heq
    subst heq
    split
    case _ heq2 => simp at heq2
    case _ ct heq2 =>
      rw [Option.some.injEq] at heq2
      subst heq2
      cases hv : t.is_valid with
      | error e => rfl
      | ok b =>
        rw [List.drop_left' ht4]
        rw [if_neg (by simp [beBytes32])]
        rw [List.take_left, List.drop_left]
        rw [if_neg (by simp [beBytes32])]
        rw [List.take_left' hs4, beU32OfList_beBytes32 hstored]
        split
        case _ heq3 => simp at heq3
        case _ fc heq3 =>
          split
          case _ heq4 => simp at heq4
          case _ fcrc heq4 =>
            rw [Option.some.injEq] at heq4
            subst heq4
            simp only [Chunk.crc]
            by_cases hc : stored = crc32 (t.bytes ++ payload)
            · simp [hc]
            · simp [hc]

/-- Whenever `Chunk::try_from` succeeds, the 4-byte big-endian length field
of the input equals the length of the returned chunk's payload. -/
lemma chunkTryFrom_ok_lengthField {v : List Nat} {c : Chunk} (h : chunkTryFrom v = .ok c) :
    beU32OfList (v.take 4) = some c.data.length := by
  simp only [chunkTryFrom, metadataBytes] at h
  split at h
  case _ => simp at h
  case _ h12 =>
    split at h
    case _ => simp at h
    case _ L heqL =>
      split at h
      case _ => simp at h
      case _ ct heqCt =>
        split at h
        case _ => simp at h
        case _ =>
          split at h
          case _ => simp at h
          case _ hle =>
            split at h
            case _ => simp at h
            case _ hle4 =>
              split at h
              case _ => simp at h
              case _ fc heqFc =>
                split at h
                case _ => simp at h
                case _ =>
                  rw [ParseResult.ok.injEq] at h
                  rw [heqL, ← h]
                  simp only [List.length_take]
                  congr 1
                  omega


lemma isValid_ok_of {t : ChunkType}
    (halpha : t.bytes.all isAsciiAlphabeticNat = true)
    (hupper : isAsciiUppercaseNat t.b2 = true) : t.is_valid = .ok true :=
  (isValid_ok_iff t).mpr ⟨halpha, hupper⟩

lemma isValid_err_of_not_upper {t : ChunkType} (h : isAsciiUppercaseNat t.b2 = false) :
    t.is_valid = .error .InvalidChunkType := by
  unfold ChunkType.is_valid ChunkType.is_reserved_bit_valid
  simp [h]

/-- `ChunkType::from_str` on a string whose UTF-8 encoding has exactly 4
bytes reduces to the alphabetic check on those bytes. -/
lemma fromStr_of_four {s : List Char} {a b c d : Nat} (h : strUtf8 s = [a, b, c, d]) :
    ChunkType.fromStr s =
      if [a, b, c, d].all isAsciiAlphabeticNat then .ok ⟨a, b, c, d⟩
      else .error .NonAsciiCharFound := by
  unfold ChunkType.fromStr
  rw [h]
  simp only [List.length_cons, List.length_nil]
  rw [if_neg (by omega)]
  simp only [chunkTypeFromList]
  unfold ChunkType.is_valid_byte
  cases hall : [a, b, c, d].all isAsciiAlphabeticNat <;>
    simp [ChunkType.bytes, hall]

lemma fromStr_invalid_length {s : List Char} (h : (strUtf8 s).length ≠ 4) :
    ChunkType.fromStr s = .error .InvalidLength := by
  unfold ChunkType.fromStr
  rw [if_pos h]

lemma alpha_lt_128 {b : Nat} (h : isAsciiAlphabeticNat b = true) : b < 128 := by
  simp [isAsciiAlphabeticNat, isAsciiUppercaseNat, isAsciiLowercaseNat] at h
  omega

lemma utf8Bytes_ascii {ch : Char} (h : ch.toNat < 128) : utf8Bytes ch = [ch.toNat] := by
  unfold utf8Bytes
  rw [if_pos (by omega)]

lemma asBytes_take4 (c : Chunk) :
    c.asBytes.take 4 = beBytes32 (c.data.length % 2 ^ 32) := rfl

lemma decodeAux_eq (t : ChunkType) :
    ∀ l : List Chunk,
      (match findFirstIdx t l with
        | none => DecodeOutcome.panicked
        | some i =>
          match l[i]? with
          | none => DecodeOutcome.panicked
          | some c => DecodeOutcome.ok c) =
      match removeFirstAux t l with
      | .error _ => DecodeOutcome.panicked
      | .ok (c0, _) => DecodeOutcome.ok c0 := by
  intro l
  induction l with
  | nil => rfl
  | cons a l ih =>
    by_cases ha : a.chunkType = t
    · simp [findFirstIdx, removeFirstAux, ha]
    · have h1 : findFirstIdx t (a :: l)
          = if a.chunkType = t then some 0 else (findFirstIdx t l).map (· + 1) := rfl
      have h2 : removeFirstAux t (a :: l)
          = if a.chunkType = t then .ok (a, l)
            else
              match removeFirstAux t l with
              | .error e => .error e
              | .ok (c0, l0) => .ok (c0, a :: l0) := rfl
      rw [h1, h2, if_neg ha, if_neg ha]
      cases hf : findFirstIdx t l with
      | none =>
        cases hr : removeFirstAux t l with
        | error e => rfl
        | ok pr =>
          rw [hf, hr] at ih
          cases pr with | mk c0 l0 => simp at ih
      | some i =>
        cases hr : removeFirstAux t l with
        | error e =>
          rw [hf, hr] at ih
          simpa [List.getElem?_cons_succ] using ih
        | ok pr =>
          rw [hf, hr] at ih
          cases pr with | mk c0 l0 => simpa [List.getElem?_cons_succ] using ih

/-- The CLI decode arm panics exactly when `remove_first` would report
`NotFound`, and otherwise returns the same first matching chunk. -/
lemma decodeOp_eq_removeFirstAux (t : ChunkType) (p : Png) :
    decodeOp p t =
      match removeFirstAux t p.chunks with
      | .error _ => DecodeOutcome.panicked
      | .ok (c0, _) => DecodeOutcome.ok c0 := by
  obtain ⟨l⟩ := p
  exact decodeAux_eq t l

lemma removeFirstAux_absent (t : ChunkType) :
    ∀ l : List Chunk, (∀ c ∈ l, c.chunkType ≠ t) →
      removeFirstAux t l = .error .ChunkNotFound := by
  intro l
  induction l with
  | nil => intro; rfl
  | cons a rest ih =>
    intro hall
    have ha := hall a (by simp)
    simp only [removeFirstAux]
    rw [if_neg ha, ih (fun c hc => hall c (by simp [hc]))]

lemma removeFirstAux_present (t : ChunkType) :
    ∀ (l : List Chunk) (c : Chunk), c ∈ l → c.chunkType = t →
      ∃ c0 pre post, l = pre ++ c0 :: post ∧ c0.chunkType = t ∧
        (∀ c' ∈ pre, c'.chunkType ≠ t) ∧
        removeFirstAux t l = .ok (c0, pre ++ post) := by
  intro l
  induction l with
  | nil => intro c hc; simp at hc
  | cons a rest ih =>
    intro c hc hct
    by_cases ha : a.chunkType = t
    · exact ⟨a, [], rest, rfl, ha, by simp, by simp [removeFirstAux, ha]⟩
    · have hcr : c ∈ rest := by
        rcases List.mem_cons.mp hc with h | h
        · exact absurd (h ▸ hct) ha
        · exact h
      obtain ⟨c0, pre, post, hsplit, hc0, hpre, hrem⟩ := ih c hcr hct
      refine ⟨c0, a :: pre, post, by simp [hsplit], hc0, ?_, ?_⟩
      · intro c' hc'
        rcases List.mem_cons.mp hc' with h | h
        · exact h ▸ ha
        · exact hpre c' h
      · simp [removeFirstAux, ha, hrem]

/-- C1: `Chunk::try_from` only returns a chunk or a typed error for
truncated input, with `ShortInput` on fewer than 12 bytes and on a declared
length exceeding the remaining buffer. In fact only the first part holds:
an input of fewer than 12 bytes fails with `ShortInput 12`, but a 12-byte
record whose declared length 1 (or 5) leaves fewer than `L + 4` bytes after
the length and type fields makes the code panic in `split_at` instead of
returning `ShortInput`. -/
theorem chunk_parse_truncation_panics :
    chunkTryFrom [0, 0, 0, 0] = .err (.ShortInput 12) ∧
    chunkTryFrom [] = .err (.ShortInput 12) ∧
    chunkTryFrom [0, 0, 0, 1, 82, 117, 83, 116, 0, 0, 0, 0] = .panicked ∧
    chunkTryFrom [0, 0, 0, 5, 82, 117, 83, 116, 0, 0, 0, 0] = .panicked := by
  decide

/-- C2 (counterexample): the string `bcé` has 3 characters, so the claim
(`InvalidLength` exactly when not 4 characters) demands `InvalidLength`,
but its UTF-8 encoding is 4 bytes, so `from_str` passes the length check
and fails with `NonAsciiCharFound` instead. -/
theorem chunk_type_parse_char_count_counterexample :
    (['b', 'c', 'é'] : List Char).length = 3 ∧
    ChunkType.fromStr ['b', 'c', 'é'] = .error .NonAsciiCharFound ∧
    ChunkType.fromStr ['b', 'c', 'é'] ≠ .error .InvalidLength := by
  decide

/-- C2 (amended): `ChunkType::from_str` fails with `InvalidLength` exactly
when the UTF-8 byte length of the input is not 4, and for byte length 4 it
fails with `NonAsciiCharFound` exactly when some byte is not
ASCII-alphabetic; `"abc"` gives `InvalidLength` and `"Ru1t"` gives
`NonAsciiCharFound`. -/
theorem chunk_type_parse_error_conditions :
    (∀ s : List Char,
      (ChunkType.fromStr s = .error .InvalidLength ↔ (strUtf8 s).length ≠ 4) ∧
      ((strUtf8 s).length = 4 →
        (ChunkType.fromStr s = .error .NonAsciiCharFound ↔
          (strUtf8 s).all isAsciiAlphabeticNat = false))) ∧
    ChunkType.fromStr ['a', 'b', 'c'] = .error .InvalidLength ∧
    ChunkType.fromStr ['R', 'u', '1', 't'] = .error .NonAsciiCharFound := by
  refine ⟨?_, by decide, by decide⟩
  intro s
  by_cases h4 : (strUtf8 s).length = 4
  · obtain ⟨a, b, c, d, habcd⟩ := length_four_exists h4
    rw [fromStr_of_four habcd, habcd]
    constructor
    · cases hall : [a, b, c, d].all isAsciiAlphabeticNat <;> simp [hall, h4]
    · intro h1
      cases hall : [a, b, c, d].all isAsciiAlphabeticNat <;> simp [hall]
  · rw [fromStr_invalid_length h4]
    constructor
    · simp [h4]
    · intro h; exact absurd h h4

/-- C2 (witness): the amended theorem applied to the concrete strings
`Ru1t` (4 bytes, one not alphabetic) and `Rustx` (5 bytes). -/
theorem chunk_type_parse_error_conditions_witness :
    (strUtf8 ['R', 'u', '1', 't']).length = 4 ∧
    ChunkType.fromStr ['R', 'u', '1', 't'] = .error .NonAsciiCharFound ∧
    ChunkType.fromStr ['R', 'u', 's', 't', 'x'] = .error .InvalidLength :=
  ⟨by decide,
    ((chunk_type_parse_error_conditions.1 ['R', 'u', '1', 't']).2 (by decide)).mpr
      (by decide),
    (chunk_type_parse_error_conditions.1 ['R', 'u', 's', 't', 'x']).1.mpr (by decide)⟩

/-- C3 (amended): for a type code whose 4 bytes are ASCII-alphabetic with
byte 2 uppercase, and any payload of fewer than `2^32` bytes, parsing the
serialization of the created chunk succeeds and returns the identical
chunk (hence identical type, payload and recomputed checksum). -/
theorem chunk_roundtrip (t : ChunkType) (d : List Nat)
    (halpha : t.bytes.all isAsciiAlphabeticNat = true)
    (hupper : isAsciiUppercaseNat t.b2 = true)
    (hlen : d.length < 2 ^ 32) :
    chunkTryFrom (Chunk.asBytes ⟨t, d⟩) = .ok ⟨t, d⟩ := by
  have hmod : d.length % 2 ^ 32 = d.length := Nat.mod_eq_of_lt hlen
  have hshape := chunkTryFrom_shape t d [] (Chunk.crc ⟨t, d⟩) hlen (crc32_lt _)
  rw [isValid_ok_of halpha hupper] at hshape
  rw [List.append_nil] at hshape
  rw [show Chunk.asBytes ⟨t, d⟩
      = beBytes32 d.length ++ (t.bytes ++ (d ++ beBytes32 (Chunk.crc ⟨t, d⟩))) by
    simp only [Chunk.asBytes, hmod, List.append_assoc]]
  rw [hshape]
  simp [Chunk.crc]

/-- C3 (witness): the round trip at the concrete type `RuSt` and payload
`[1, 2, 3]`. -/
theorem chunk_roundtrip_witness :
    rustType.bytes.all isAsciiAlphabeticNat = true ∧
    isAsciiUppercaseNat rustType.b2 = true ∧
    ([1, 2, 3] : List Nat).length < 2 ^ 32 ∧
    chunkTryFrom (Chunk.asBytes ⟨rustType, [1, 2, 3]⟩) = .ok ⟨rustType, [1, 2, 3]⟩ :=
  ⟨by decide, by decide, by decide,
    chunk_roundtrip rustType [1, 2, 3] (by decide) (by decide) (by decide)⟩

/-- C3 (counterexample): for the payload of `2^32` zero bytes the claim
fails: the serialized length field is truncated to 0, so parsing the
serialization cannot return the original chunk. -/
theorem chunk_roundtrip_counterexample :
    chunkTryFrom (Chunk.asBytes ⟨rustType, List.replicate (2 ^ 32) 0⟩) ≠
      .ok ⟨rustType, List.replicate (2 ^ 32) 0⟩ := by
  intro h
  have hlf := chunkTryFrom_ok_lengthField h
  rw [asBytes_take4, beU32OfList_beBytes32 (Nat.mod_lt _ (by norm_num)),
    Option.some.injEq] at hlf
  have hdl : (Chunk.mk rustType (List.replicate (2 ^ 32) 0)).data.length = 2 ^ 32 :=
    List.length_replicate _ _
  rw [hdl, Nat.mod_self] at hlf
  exact absurd hlf (by norm_num)

set_option maxRecDepth 100000 in
/-- C4: the chunk built from type `RuSt` and the test payload has checksum
2882656334; the hand-built buffer (length 42, type, payload, stored
checksum 2882656334) parses back to the identical chunk; the same buffer
with stored checksum 2882656333 fails to parse. -/
theorem chunk_concrete_vector :
    Chunk.crc ⟨rustType, secretMsg⟩ = 2882656334 ∧
    secretMsg.length = 42 ∧
    chunkTryFrom (testBuffer 2882656334) = .ok ⟨rustType, secretMsg⟩ ∧
    chunkTryFrom (testBuffer 2882656333) =
      .err (.IncorrectCrc 2882656333 2882656334) := by
  decide

/-- C5: a well-formed chunk record (valid type, length field equal to the
payload length) whose stored 4-byte big-endian checksum differs from the
CRC-32/ISO-HDLC checksum of type bytes ++ payload is rejected with
`IncorrectCrc` carrying the found and the expected value — it is never
accepted. -/
theorem chunk_crc_mismatch_rejected (t : ChunkType) (payload : List Nat) (stored : Nat)
    (halpha : t.bytes.all isAsciiAlphabeticNat = true)
    (hupper : isAsciiUppercaseNat t.b2 = true)
    (hlen : payload.length < 2 ^ 32)
    (hstored : stored < 2 ^ 32)
    (hne : stored ≠ crc32 (t.bytes ++ payload)) :
    chunkTryFrom (beBytes32 payload.length ++ t.bytes ++ payload ++ beBytes32 stored) =
      .err (.IncorrectCrc stored (crc32 (t.bytes ++ payload))) := by
  have hshape := chunkTryFrom_shape t payload [] stored hlen hstored
  rw [isValid_ok_of halpha hupper] at hshape
  rw [show beBytes32 payload.length ++ t.bytes ++ payload ++ beBytes32 stored
      = beBytes32 payload.length ++ (t.bytes ++ (payload ++ (beBytes32 stored ++ []))) by
    simp]
  rw [hshape]
  simp [hne]

/-- C5 (witness): the empty-payload `RuSt` record with stored checksum 0,
which differs from the expected checksum. -/
theorem chunk_crc_mismatch_rejected_witness :
    (0 : Nat) ≠ crc32 (rustType.bytes ++ []) ∧
    chunkTryFrom (beBytes32 ([] : List Nat).length ++ rustType.bytes ++ []
        ++ beBytes32 0) =
      .err (.IncorrectCrc 0 (crc32 (rustType.bytes ++ []))) :=
  ⟨by decide,
    chunk_crc_mismatch_rejected rustType [] 0 (by decide) (by decide) (by decide)
      (by decide) (by decide)⟩

/-- C6: `ChunkType::is_valid` reports valid exactly when all 4 bytes are
ASCII-alphabetic and byte 2 is ASCII-uppercase; `RuSt` is valid
(critical, not public, reserved bit valid, safe to copy) and `Rust` is not
(reserved bit invalid). -/
theorem chunk_type_validity :
    (∀ t : ChunkType, t.is_valid = .ok true ↔
      (t.bytes.all isAsciiAlphabeticNat = true ∧ isAsciiUppercaseNat t.b2 = true)) ∧
    rustType.is_critical = true ∧
    rustType.is_public = false ∧
    rustType.is_reserved_bit_valid = .ok true ∧
    rustType.is_safe_to_copy = true ∧
    rustType.is_valid = .ok true ∧
    (ChunkType.mk 82 117 115 116).is_reserved_bit_valid = .error .InvalidChunkType ∧
    (ChunkType.mk 82 117 115 116).is_valid = .error .InvalidChunkType :=
  ⟨isValid_ok_iff, by decide, by decide, by decide, by decide, by decide,
    by decide, by decide⟩

/-- C7: `Chunk::as_bytes` emits, in order, the payload length as a
truncated 4-byte big-endian field, the 4 type bytes, the payload verbatim,
and the recomputed 4-byte big-endian checksum; both the length field and
the checksum are recomputed from the current type and payload (the `Chunk`
record stores no cached length or checksum). -/
theorem chunk_as_bytes_layout :
    ∀ c : Chunk,
      c.asBytes = beBytes32 c.length ++ c.chunkType.bytes ++ c.data ++ beBytes32 c.crc ∧
      c.length = c.data.length % 2 ^ 32 ∧
      c.crc = crc32 (c.chunkType.bytes ++ c.data) ∧
      c.asBytes.length = 12 + c.data.length := by
  intro c
  refine ⟨rfl, rfl, rfl, ?_⟩
  simp [Chunk.asBytes, beBytes32, ChunkType.bytes]
  omega

/-- C8: every string of exactly 4 ASCII-alphabetic characters (each one
byte in UTF-8) parses successfully whatever the case of byte 2; the
reserved-bit rule is enforced by `is_valid`, not by `from_str`. -/
theorem chunk_type_parse_ignores_reserved_bit (s : List Char)
    (h4 : s.length = 4)
    (halpha : ∀ ch ∈ s, isAsciiAlphabeticNat ch.toNat = true) :
    ∃ t, ChunkType.fromStr s = .ok t ∧ t.bytes = s.map Char.toNat ∧
      (isAsciiUppercaseNat t.b2 = false → t.is_valid = .error .InvalidChunkType) := by
  obtain ⟨a, b, c, d, hs⟩ := length_four_exists h4
  subst hs
  have ha := halpha a (by simp)
  have hb := halpha b (by simp)
  have hc := halpha c (by simp)
  have hd := halpha d (by simp)
  have hutf : strUtf8 [a, b, c, d] = [a.toNat, b.toNat, c.toNat, d.toNat] := by
    simp [strUtf8, utf8Bytes_ascii (alpha_lt_128 ha), utf8Bytes_ascii (alpha_lt_128 hb),
      utf8Bytes_ascii (alpha_lt_128 hc), utf8Bytes_ascii (alpha_lt_128 hd)]
  refine ⟨⟨a.toNat, b.toNat, c.toNat, d.toNat⟩, ?_, by simp [ChunkType.bytes], ?_⟩
  · rw [fromStr_of_four hutf]
    rw [if_pos (by simp [ha, hb, hc, hd])]
  · intro hup
    exact isValid_err_of_not_upper hup

/-- C8 (witness): the reserved-bit-invalid but alphabetic string `Rust`
parses successfully. -/
theorem chunk_type_parse_ignores_reserved_bit_witness :
    (['R', 'u', 's', 't'] : List Char).length = 4 ∧
    (∃ t, ChunkType.fromStr ['R', 'u', 's', 't'] = .ok t ∧
      t.bytes = ['R', 'u', 's', 't'].map Char.toNat ∧
      (isAsciiUppercaseNat t.b2 = false → t.is_valid = .error .InvalidChunkType)) :=
  ⟨by decide, chunk_type_parse_ignores_reserved_bit ['R', 'u', 's', 't']
    (by decide) (by decide)⟩

/-- C9 (counterexample): decoding a type absent from the container does not
fail with the typed `NotFound` error — the CLI decode arm calls
`Option::expect` on the search result and panics. -/
theorem decode_absent_panics_counterexample :
    decodeOp ⟨[]⟩ rustType = .panicked := by
  decide

/-- C9 (amended): on a type absent from the chunk sequence `remove_first`
fails with the typed `NotFound` error and leaves the sequence unchanged,
while the CLI decode arm panics (via `expect`) rather than returning
`NotFound`; on a present type both operations locate the first matching
chunk, and `remove_first` removes exactly it, shrinking the sequence by one
and preserving the relative order of the remaining chunks. -/
theorem remove_first_and_decode_behavior :
    ∀ (p : Png) (t : ChunkType),
      ((∀ c ∈ p.chunks, c.chunkType ≠ t) →
        p.removeFirstChunk t = .error .ChunkNotFound ∧ decodeOp p t = .panicked) ∧
      (∀ c, c ∈ p.chunks → c.chunkType = t →
        ∃ c0 pre post,
          p.chunks = pre ++ c0 :: post ∧ c0.chunkType = t ∧
          (∀ c' ∈ pre, c'.chunkType ≠ t) ∧
          p.removeFirstChunk t = .ok (c0, ⟨pre ++ post⟩) ∧
          (pre ++ post).length + 1 = p.chunks.length ∧
          decodeOp p t = .ok c0) := by
  intro p t
  constructor
  · intro habs
    have hr := removeFirstAux_absent t p.chunks habs
    constructor
    · unfold Png.removeFirstChunk
      rw [hr]
    · rw [decodeOp_eq_removeFirstAux t p, hr]
  · intro c hc hct
    obtain ⟨c0, pre, post, hsplit, hc0, hpre, hrem⟩ :=
      removeFirstAux_present t p.chunks c hc hct
    refine ⟨c0, pre, post, hsplit, hc0, hpre, ?_, ?_, ?_⟩
    · unfold Png.removeFirstChunk
      rw [hrem]
    · rw [hsplit]
      simp
      omega
    · rw [decodeOp_eq_removeFirstAux t p, hrem]

/-- C9 (witness): the amended theorem at an empty container (absent case)
and at a singleton `RuSt` container (present case). -/
theorem remove_first_and_decode_behavior_witness :
    (Png.removeFirstChunk ⟨[]⟩ rustType = .error .ChunkNotFound ∧
      decodeOp ⟨[]⟩ rustType = .panicked) ∧
    (∃ c0 pre post,
      (Png.mk [⟨rustType, [7]⟩]).chunks = pre ++ c0 :: post ∧
      c0.chunkType = rustType ∧
      (∀ c' ∈ pre, c'.chunkType ≠ rustType) ∧
      Png.removeFirstChunk ⟨[⟨rustType, [7]⟩]⟩ rustType = .ok (c0, ⟨pre ++ post⟩) ∧
      (pre ++ post).length + 1 = (Png.mk [⟨rustType, [7]⟩]).chunks.length ∧
      decodeOp ⟨[⟨rustType, [7]⟩]⟩ rustType = .ok c0) :=
  ⟨(remove_first_and_decode_behavior ⟨[]⟩ rustType).1 (by simp),
    (remove_first_and_decode_behavior ⟨[⟨rustType, [7]⟩]⟩ rustType).2
      ⟨rustType, [7]⟩ (by simp) rfl⟩

/-- C10: for a chunk whose payload has `2^32` or more bytes, `length()` and
the serialized length field are the payload length reduced modulo `2^32`
(the `as u32` cast truncates), `as_bytes` still emits the entire payload,
the length field no longer equals the actual payload length, and the
serialization does not parse back to the same chunk. -/
theorem chunk_length_truncation_overflow (c : Chunk) (h : 2 ^ 32 ≤ c.data.length) :
    c.length = c.data.length % 2 ^ 32 ∧
    c.asBytes = beBytes32 (c.data.length % 2 ^ 32) ++ c.chunkType.bytes ++ c.data
      ++ beBytes32 c.crc ∧
    c.length ≠ c.data.length ∧
    chunkTryFrom c.asBytes ≠ .ok c := by
  have hmod : c.data.length % 2 ^ 32 < 2 ^ 32 := Nat.mod_lt _ (by norm_num)
  refine ⟨rfl, rfl, ?_, ?_⟩
  · unfold Chunk.length
    omega
  · intro hok
    have hlf := chunkTryFrom_ok_lengthField hok
    rw [asBytes_take4, beU32OfList_beBytes32 hmod, Option.some.injEq] at hlf
    omega

/-- C10 (witness): the theorem applied to the `RuSt` chunk with a payload
of exactly `2^32` zero bytes. -/
theorem chunk_length_truncation_overflow_witness :
    2 ^ 32 ≤ (Chunk.mk rustType (List.replicate (2 ^ 32) 0)).data.length ∧
    ((Chunk.mk rustType (List.replicate (2 ^ 32) 0)).length
        = (Chunk.mk rustType (List.replicate (2 ^ 32) 0)).data.length % 2 ^ 32 ∧
      (Chunk.mk rustType (List.replicate (2 ^ 32) 0)).asBytes
        = beBytes32 ((Chunk.mk rustType (List.replicate (2 ^ 32) 0)).data.length % 2 ^ 32)
          ++ (Chunk.mk rustType (List.replicate (2 ^ 32) 0)).chunkType.bytes
          ++ (Chunk.mk rustType (List.replicate (2 ^ 32) 0)).data
          ++ beBytes32 (Chunk.mk rustType (List.replicate (2 ^ 32) 0)).crc ∧
      (Chunk.mk rustType (List.replicate (2 ^ 32) 0)).length
        ≠ (Chunk.mk rustType (List.replicate (2 ^ 32) 0)).data.length ∧
      chunkTryFrom (Chunk.mk rustType (List.replicate (2 ^ 32) 0)).asBytes
        ≠ .ok (Chunk.mk rustType (List.replicate (2 ^ 32) 0))) :=
  have h : 2 ^ 32 ≤ (Chunk.mk rustType (List.replicate (2 ^ 32) 0)).data.length :=
    le_of_eq (List.length_replicate _ _).symm
  ⟨h, chunk_length_truncation_overflow _ h⟩
